import Mathlib

/-!
Shallow embedding of `src/Frontend/assets/js/ecg-analyzer.js` (class `ECGAnalyzer`).

Amplitude samples are modelled as rationals (`ℚ`); the sampling rate is a
natural number (the source parses it with `parseInt`).  Fallible inputs
(`parseFloat` producing `NaN`, missing `ecgData`/leads) are modelled with
`Option`.  JavaScript `Math.round` on exact values is `⌊x + 1/2⌋`
(round half toward +∞), and `Math.floor` on non-negative exact values is
`Nat.floor`.
-/

namespace ECG

/-- A detected beat mark, as pushed by `detectQRSComplexes`:
`{ index: i, amplitude: leadII[i], time: i / this.samplingRate }`. -/
structure BeatMark where
  index : ℕ
  amplitude : ℚ
  time : ℚ
deriving DecidableEq, Repr

/-- Default mark used for out-of-range list access. -/
def dMark : BeatMark := ⟨0, 0, 0⟩

/-- JavaScript `Math.round` on an exact rational: round half toward +∞. -/
def jsRound (x : ℚ) : ℤ := ⌊x + 1/2⌋

/-- Source `this.prqsPoints = { P: [], Q: [], R: [], S: [], T: [] }` (line 8). -/
structure PrqsPoints where
  P : List BeatMark
  Q : List BeatMark
  R : List BeatMark
  S : List BeatMark
  T : List BeatMark
deriving DecidableEq, Repr

/-- The initial / reset value of `prqsPoints`: all five lists empty. -/
def initialPrqs : PrqsPoints := ⟨[], [], [], [], []⟩

/-- The animation-relevant mutable state of the analyzer:
`currentAnimationTime`, `isAnimating`, `animationId`. -/
structure AnimState where
  currentAnimationTime : ℚ
  isAnimating : Bool
  animationId : Option ℕ
deriving DecidableEq, Repr

/-- Source `stopAnimation()` (lines 1003-1015): no-op when not animating, otherwise
clears `isAnimating` and `animationId`. -/
def stopAnimation (s : AnimState) : AnimState :=
  if s.isAnimating = false then s
  else { s with isAnimating := false, animationId := none }

/-- Source `seekToTime(time)` (lines 1039-1050).  The argument is the result of
`parseFloat(time)`: `none` models `NaN` (non-numeric input), in which case
the method returns immediately.  Otherwise playback is stopped if running
and `currentAnimationTime` is overwritten with the parsed value — the
source performs no clamping. -/
def seekToTime (s : AnimState) (time : Option ℚ) : AnimState :=
  match time with
  | none => s
  | some t =>
      let s1 := if s.isAnimating then stopAnimation s else s
      { s1 with currentAnimationTime := t }

/-- Source `Math.floor(0.2 * this.samplingRate)` (line 1224), the refractory skip
added to the scan index after an accepted R-peak. -/
def refractorySamples (R : ℕ) : ℕ := Nat.floor ((0.2 : ℚ) * R)

/-- The detection threshold `const threshold = 0.5` (line 1215). -/
def rThreshold : ℚ := 0.5

/-- The scan loop of `detectQRSComplexes` (lines 1217-1226):
`for (let i = 1; i < leadII.length - 1; i++)`; a sample strictly greater
than both neighbours and greater than the threshold is pushed as an R-mark
and the loop variable additionally receives `i += Math.floor(0.2 *
samplingRate)` (the `for` then also performs its own `i++`). -/
def detectLoop (sig : List ℚ) (R : ℕ) (i : ℕ) : List BeatMark :=
  if i < sig.length - 1 then
    if sig.getD i 0 > sig.getD (i - 1) 0 ∧ sig.getD i 0 > sig.getD (i + 1) 0 ∧
        sig.getD i 0 > rThreshold then
      ⟨i, sig.getD i 0, (i : ℚ) / R⟩ :: detectLoop sig R (i + refractorySamples R + 1)
    else
      detectLoop sig R (i + 1)
  else []
termination_by sig.length - i
decreasing_by
  · omega
  · omega

/-- Source `detectQRSComplexes` on the chosen reference lead: the scan starts at
index 1. -/
def detectQRSComplexes (sig : List ℚ) (R : ℕ) : List BeatMark :=
  detectLoop sig R 1

/-- Source `this.ecgData.leads[1] || this.ecgData.leads[0]` (line 1211): lead 1 when
present (a JavaScript array — even an empty one — is truthy), otherwise
lead 0, otherwise nothing. -/
def referenceLead (leads : List (List ℚ)) : Option (List ℚ) :=
  match leads.get? 1 with
  | some l => some l
  | none => leads.get? 0

/-- Possible outcomes of invoking `detectQRSComplexes` on the analyzer.
`invalidInputError` is the outcome the spec's error taxonomy demands for
empty/missing input; the source never produces it: it either returns
early without touching `prqsPoints` (`earlyReturn`) or overwrites
`prqsPoints.R` with the detected marks (`marks`). -/
inductive DetectOutcome where
  | invalidInputError
  | earlyReturn
  | marks (ms : List BeatMark)
deriving DecidableEq, Repr

/-- The whole of `detectQRSComplexes` (lines 1208-1227), including its guard
clauses: `if (!this.ecgData || !this.ecgData.leads) return;` and
`if (!leadII) return;`.  `ecgData` is `none` when the waveform (or its
`leads` field) is missing. -/
def detectQRSOutcome (ecgData : Option (List (List ℚ))) (R : ℕ) : DetectOutcome :=
  match ecgData with
  | none => .earlyReturn
  | some leads =>
      match referenceLead leads with
      | none => .earlyReturn
      | some sig => .marks (detectQRSComplexes sig R)

/-- Effect of a successful analysis run on `prqsPoints` (line 1214 and the
push at 1219-1223): `this.prqsPoints.R` is replaced wholesale; the other
four lists are not touched by `detectQRSComplexes`. -/
def runDetect (pts : PrqsPoints) (sig : List ℚ) (R : ℕ) : PrqsPoints :=
  { pts with R := detectQRSComplexes sig R }

/-- Total signal duration as used by the source
(`this.ecgData.leads[0].length / this.samplingRate`). -/
def totalDuration (leads : List (List ℚ)) (R : ℕ) : ℚ :=
  ((leads.getD 0 []).length : ℚ) / R

/-- clamp of a rational to `[lo, hi]`, used to state the spec's claims. -/
def clampQ (t lo hi : ℚ) : ℚ := max lo (min t hi)

/-- Spec-side beat scan, written from the words of claim C1: iterate the
sample index i from 1 to length-2; record an R-mark at i exactly when the
sample is strictly greater than both its neighbours and strictly greater
than the fixed threshold 0.5; immediately after recording a mark the scan
index is advanced by `floor(0.2 * samplingRate)` additional samples before
scanning resumes. -/
def specBeatScan (sig : List ℚ) (R : ℕ) (i : ℕ) : List ℕ :=
  if 1 ≤ i ∧ i ≤ sig.length - 2 then
    if sig.getD i 0 > sig.getD (i - 1) 0 ∧ sig.getD i 0 > sig.getD (i + 1) 0 ∧
        sig.getD i 0 > 0.5 then
      i :: specBeatScan sig R (i + 1 + Nat.floor ((0.2 : ℚ) * R))
    else
      specBeatScan sig R (i + 1)
  else []
termination_by sig.length - i
decreasing_by
  · omega
  · omega

/-- Source `list.reduce((a, b) => a + b, 0)`: left fold with initial value 0. -/
def sumQ (l : List ℚ) : ℚ := l.foldl (· + ·) 0

/-- Source `calculateRRIntervals()` (lines 1069-1081): empty when fewer than two
R-marks, otherwise `(R[i].index - R[i-1].index) / samplingRate` for
i = 1 .. count-1 (expressed as a fold over consecutive pairs). -/
def calculateRRIntervals (marks : List BeatMark) (R : ℕ) : List ℚ :=
  if marks.length < 2 then []
  else List.zipWith (fun a b => ((b.index : ℚ) - (a.index : ℚ)) / R) marks marks.tail

/-- The heart-rate computation of `updateStats()` (lines 1086-1088):
`avgRR = intervals.length > 0 ? sum/length : 0`;
`heartRate = avgRR > 0 ? Math.round(60 / avgRR) : 0`. -/
def updateStatsHeartRate (marks : List BeatMark) (R : ℕ) : ℤ :=
  let rrIntervals := calculateRRIntervals marks R
  let avgRR : ℚ := if 0 < rrIntervals.length then sumQ rrIntervals / rrIntervals.length else 0
  if 0 < avgRR then jsRound (60 / avgRR) else 0

/-- The window filter of `updateStatsAnimated` (lines 1104-1106, 1109-1111):
R-marks whose `index` lies in `[startIdx, endIdx)`. -/
def windowBeats (marksR : List BeatMark) (startIdx endIdx : ℕ) : List BeatMark :=
  marksR.filter (fun beat => startIdx ≤ beat.index ∧ beat.index < endIdx)

/-- Value `beatsInWindow` of `updateStatsAnimated` (lines 1104-1106). -/
def updateStatsBeatsInWindow (marksR : List BeatMark) (startIdx endIdx : ℕ) : ℕ :=
  (windowBeats marksR startIdx endIdx).length

/-- Value `instantaneousHR` of `updateStatsAnimated` (lines 1108-1127): mean RR of
in-window beats when at least two fall inside; with exactly one in-window
beat and more than one global mark, the global mean RR from
`calculateRRIntervals`; otherwise 0. -/
def updateStatsInstantHR (marksR : List BeatMark) (R : ℕ) (startIdx endIdx : ℕ) : ℤ :=
  let beats := windowBeats marksR startIdx endIdx
  if 2 ≤ beats.length then
    let intervals := List.zipWith (fun a b => ((b.index : ℚ) - (a.index : ℚ)) / R)
      beats beats.tail
    let avgInterval := sumQ intervals / intervals.length
    jsRound (60 / avgInterval)
  else if beats.length = 1 ∧ 1 < marksR.length then
    let globalIntervals := calculateRRIntervals marksR R
    if 0 < globalIntervals.length then
      jsRound (60 / (sumQ globalIntervals / globalIntervals.length))
    else 0
  else 0

/-- Spec-side mean RR interval of a mark list, from the words of C3/C9:
the mean of `(R[i].sampleIndex - R[i-1].sampleIndex) / samplingRate` over
consecutive marks (0 when there are no intervals). -/
def specMeanRR (marks : List BeatMark) (R : ℕ) : ℚ :=
  let ivs := List.zipWith (fun a b => ((b.index : ℚ) - (a.index : ℚ)) / R) marks marks.tail
  sumQ ivs / ivs.length

/-- Spec-side instantaneous heart rate, from the words of C9. -/
def specInstantHR (marksR : List BeatMark) (R : ℕ) (startIdx endIdx : ℕ) : ℤ :=
  let w := windowBeats marksR startIdx endIdx
  if 2 ≤ w.length then jsRound (60 / specMeanRR w R)
  else if w.length = 1 ∧ 1 < marksR.length then jsRound (60 / specMeanRR marksR R)
  else 0

/-- Spec-side beats-in-window count, from the words of C9: the number of
R-marks whose sampleIndex lies in `[startSample, endSample)`. -/
def specBeatsInWindow (marksR : List BeatMark) (startIdx endIdx : ℕ) : ℕ :=
  marksR.countP (fun beat => decide (startIdx ≤ beat.index ∧ beat.index < endIdx))

/-- Source `generateXORChunks()` (lines 607-623): `Math.floor(signal.length / c)`
contiguous chunks, chunk i being `signal.slice(i*c, i*c + c)`. -/
def generateXORChunks (signal : List ℚ) (c : ℕ) : List (List ℚ) :=
  (List.range (signal.length / c)).map (fun i => (signal.drop (i * c)).take c)

/-- Overlay branch of `updateXORDisplay` (lines 637-653): `forEach` over the
chunks pushing a trace only while `index < 10`. -/
def xorOverlayTraces (chunks : List (List ℚ)) : List (List ℚ) :=
  (chunks.enum).filterMap (fun p => if p.1 < 10 then some p.2 else none)

/-- Difference branch of `updateXORDisplay` (lines 654-676): when at least
two chunks exist, for i = 1 .. min(count, 6) - 1 the trace
`abs(chunk[i][j] - chunk[0][j])` against chunk 0 as baseline (all chunks
produced by `generateXORChunks` share one length, so the elementwise map
over `chunk[i]` is a zipWith); otherwise no traces. -/
def xorDifferenceTraces (chunks : List (List ℚ)) : List (List ℚ) :=
  if 2 ≤ chunks.length then
    (List.range' 1 (min chunks.length 6 - 1)).map (fun i =>
      List.zipWith (fun v b => |v - b|) (chunks.getD i []) (chunks.getD 0 []))
  else []

/-- The index loop `for (let i = 0; i < n; i += step)` shared by the
decimation code.  The `max step 1` in the recursive call only serves
termination: every call site passes a step of the form `max 1 k ≥ 1`, for
which `max step 1 = step`. -/
def strideLoop (n step i : ℕ) : List ℕ :=
  if i < n then i :: strideLoop n step (i + max step 1) else []
termination_by n - i
decreasing_by omega

/-- The decimation stride of `updateRecurrenceDisplay` (line 802):
`Math.max(1, Math.floor(leadXData.length / 1000))`. -/
def recurrenceStride (lenX : ℕ) : ℕ := max 1 (lenX / 1000)

/-- The decimated index set of `updateRecurrenceDisplay` (lines 804-808):
indices `0, step, 2*step, ...` below `min(leadXData.length,
leadYData.length)`, with the stride computed from lead X's length. -/
def recurrenceIndices (x y : List ℚ) : List ℕ :=
  strideLoop (min x.length y.length) (recurrenceStride x.length) 0

/-- The x series pushed by `updateRecurrenceDisplay`: `leadXData[i]` at each
decimated index. -/
def recurrenceXSeries (x y : List ℚ) : List ℚ :=
  (recurrenceIndices x y).map (fun i => x.getD i 0)

/-- The y series pushed by `updateRecurrenceDisplay`: `leadYData[i]` at each
decimated index. -/
def recurrenceYSeries (x y : List ℚ) : List ℚ :=
  (recurrenceIndices x y).map (fun i => y.getD i 0)

end ECG

namespace ECG

/-- Exactly: `floor(0.2 * R)` over exact rationals is `R / 5` in natural division. -/
theorem refractorySamples_eq (R : ℕ) : refractorySamples R = R / 5 := by
  unfold refractorySamples
  have h2 : (0.2 : ℚ) * R = (R : ℚ) / (5 : ℕ) := by push_cast; ring
  rw [h2, Nat.floor_div_nat, Nat.floor_natCast]

/-- The source scan agrees index-for-index with the spec-side scan from any
start index ≥ 1. -/
theorem detectLoop_map_index (sig : List ℚ) (R : ℕ) (i : ℕ) (hi : 1 ≤ i) :
    (detectLoop sig R i).map (fun m => m.index) = specBeatScan sig R i := by
  rw [detectLoop.eq_def, specBeatScan.eq_def]
  simp only [rThreshold, refractorySamples]
  by_cases h : i < sig.length - 1
  · have hg : 1 ≤ i ∧ i ≤ sig.length - 2 := by omega
    rw [if_pos h, if_pos hg]
    by_cases hc : sig.getD i 0 > sig.getD (i - 1) 0 ∧ sig.getD i 0 > sig.getD (i + 1) 0 ∧
        sig.getD i 0 > 0.5
    · rw [if_pos hc, if_pos hc, List.map_cons]
      have harith : i + Nat.floor ((0.2 : ℚ) * R) + 1 = i + 1 + Nat.floor ((0.2 : ℚ) * R) := by
        omega
      rw [show (⌊(0.2 : ℚ) * ↑R⌋₊ : ℕ) = Nat.floor ((0.2 : ℚ) * R) from rfl]
      rw [harith]
      exact congrArg (i :: ·) (detectLoop_map_index sig R (i + 1 + Nat.floor ((0.2 : ℚ) * R))
        (by omega))
    · rw [if_neg hc, if_neg hc]
      exact detectLoop_map_index sig R (i + 1) (by omega)
  · have hg : ¬(1 ≤ i ∧ i ≤ sig.length - 2) := by omega
    rw [if_neg h, if_neg hg, List.map_nil]
termination_by sig.length - i

/-- Every mark returned by the scan loop has index at least the start index. -/
theorem detectLoop_index_ge (sig : List ℚ) (R : ℕ) (i : ℕ) :
    ∀ m ∈ detectLoop sig R i, i ≤ m.index := by
  rw [detectLoop.eq_def]
  by_cases h : i < sig.length - 1
  · rw [if_pos h]
    by_cases hc : sig.getD i 0 > sig.getD (i - 1) 0 ∧ sig.getD i 0 > sig.getD (i + 1) 0 ∧
        sig.getD i 0 > rThreshold
    · rw [if_pos hc]
      intro m hm
      rcases List.mem_cons.mp hm with h1 | h2
      · subst h1; exact le_refl i
      · have := detectLoop_index_ge sig R (i + refractorySamples R + 1) m h2
        omega
    · rw [if_neg hc]
      intro m hm
      have := detectLoop_index_ge sig R (i + 1) m hm
      omega
  · rw [if_neg h]
    intro m hm
    exact absurd hm (List.not_mem_nil m)
termination_by sig.length - i

/-- The marks returned by the scan loop are pairwise strictly increasing
with a gap of at least the refractory skip. -/
theorem detectLoop_pairwise (sig : List ℚ) (R : ℕ) (i : ℕ) :
    (detectLoop sig R i).Pairwise
      (fun a b => a.index < b.index ∧ a.index + refractorySamples R ≤ b.index) := by
  rw [detectLoop.eq_def]
  by_cases h : i < sig.length - 1
  · rw [if_pos h]
    by_cases hc : sig.getD i 0 > sig.getD (i - 1) 0 ∧ sig.getD i 0 > sig.getD (i + 1) 0 ∧
        sig.getD i 0 > rThreshold
    · rw [if_pos hc]
      refine List.Pairwise.cons ?_ (detectLoop_pairwise sig R (i + refractorySamples R + 1))
      intro m hm
      have := detectLoop_index_ge sig R (i + refractorySamples R + 1) m hm
      constructor <;> simp <;> omega
    · rw [if_neg hc]
      exact detectLoop_pairwise sig R (i + 1)
  · rw [if_neg h]
    exact List.Pairwise.nil
termination_by sig.length - i

/-- Concrete run: a single peak of amplitude 1 at index 1, sampling rate 1,
yields exactly one R-mark at index 1. -/
theorem detect_single_peak : detectQRSComplexes [0, 1, 0] 1 = [⟨1, 1, 1⟩] := by
  rw [detectQRSComplexes, detectLoop.eq_def]
  norm_num [List.getD, rThreshold, refractorySamples_eq]
  rw [detectLoop.eq_def]
  norm_num

/-- Concrete run: detection on an empty lead yields no marks. -/
theorem detect_empty_lead (R : ℕ) : detectQRSComplexes [] R = [] := by
  rw [detectQRSComplexes, detectLoop.eq_def]
  norm_num

/-- C1: For every loaded waveform and positive sampling rate, beat detection
scans the reference lead with index i from 1 to length-2 and records an
R-mark at i exactly when the sample is strictly greater than both its
neighbours and strictly greater than the fixed threshold 0.5; immediately
after recording a mark the scan index is advanced by
`floor(0.2 * samplingRate)` additional samples before scanning resumes. -/
theorem C1_detect_matches_spec_scan (sig : List ℚ) (R : ℕ) (hR : 0 < R) :
    (detectQRSComplexes sig R).map (fun m => m.index) = specBeatScan sig R 1 :=
  detectLoop_map_index sig R 1 (le_refl 1)

/-- Witness for C1 at a concrete two-peak signal with sampling rate 5. -/
theorem C1_witness : 0 < 5 ∧
    (detectQRSComplexes [0, 1, 0, 0, 1, 0] 5).map (fun m => m.index) =
      specBeatScan [0, 1, 0, 0, 1, 0] 5 1 :=
  ⟨by norm_num, C1_detect_matches_spec_scan [0, 1, 0, 0, 1, 0] 5 (by norm_num)⟩

/-- C2: For every input lead and every positive sampling rate R, the sequence
of R-marks produced by beat detection never contains two marks whose
sampleIndex values differ by less than `floor(0.2*R)`; in particular the
recorded sampleIndex sequence is strictly increasing with gaps of at least
`floor(0.2*R)`. -/
theorem C2_refractory_gaps (sig : List ℚ) (R : ℕ) (hR : 0 < R) :
    (detectQRSComplexes sig R).Pairwise
      (fun a b => a.index < b.index ∧ a.index + refractorySamples R ≤ b.index) :=
  detectLoop_pairwise sig R 1

/-- Witness for C2 at a concrete two-peak signal with sampling rate 5. -/
theorem C2_witness : 0 < 5 ∧
    (detectQRSComplexes [0, 1, 0, 0, 1, 0] 5).Pairwise
      (fun a b => a.index < b.index ∧ a.index + refractorySamples 5 ≤ b.index) :=
  ⟨by norm_num, C2_refractory_gaps [0, 1, 0, 0, 1, 0] 5 (by norm_num)⟩

/-- C10: calling seek with an input that does not parse to a finite number
(`NaN` after `parseFloat`) is a complete no-op: the current animation time
is unchanged and a running animation keeps running, for every prior
playback state. -/
theorem C10_seek_nan_noop (s : AnimState) :
    (seekToTime s none).currentAnimationTime = s.currentAnimationTime ∧
    (seekToTime s none).isAnimating = s.isAnimating ∧
    seekToTime s none = s :=
  ⟨rfl, rfl, rfl⟩

/-- C4 fails as stated: `seekToTime` performs no clamping.  Seeking to -1 on
a 10-second signal (10 samples at rate 1) stores -1, while
`clamp(-1, 0, totalDuration) = 0`. -/
theorem C4_counterexample :
    (seekToTime ⟨0, false, none⟩ (some (-1))).currentAnimationTime = -1 ∧
    (seekToTime ⟨0, false, none⟩ (some (-1))).currentAnimationTime ≠
      clampQ (-1) 0 (totalDuration [List.replicate 10 0] 1) := by
  constructor
  · rfl
  · norm_num [seekToTime, stopAnimation, clampQ, totalDuration]

/-- C4 amended: seek with a numeric target always forces Stopped and stores
the target time without clamping; consequently, for targets inside
[0, totalDuration] the stored time coincides with
`clamp(t, 0, totalDuration)` and `isPlaying` is false. -/
theorem C4_seek_stops_and_stores (s : AnimState) (t : ℚ) (leads : List (List ℚ)) (R : ℕ) :
    (seekToTime s (some t)).isAnimating = false ∧
    (seekToTime s (some t)).currentAnimationTime = t ∧
    (0 ≤ t → t ≤ totalDuration leads R →
      (seekToTime s (some t)).currentAnimationTime = clampQ t 0 (totalDuration leads R)) := by
  refine ⟨?_, ?_, ?_⟩
  · cases hA : s.isAnimating <;> simp [seekToTime, stopAnimation, hA]
  · cases hA : s.isAnimating <;> simp [seekToTime, stopAnimation, hA]
  · intro h0 h1
    cases hA : s.isAnimating <;>
      simp [seekToTime, stopAnimation, hA, clampQ, min_eq_left h1, max_eq_right h0]

/-- Witness for the amended C4: seeking to 2 s while playing on a 10-second
signal stops playback and stores exactly 2 = clamp(2, 0, 10). -/
theorem C4_witness :
    (seekToTime ⟨3, true, some 7⟩ (some 2)).isAnimating = false ∧
    (seekToTime ⟨3, true, some 7⟩ (some 2)).currentAnimationTime = 2 ∧
    (seekToTime ⟨3, true, some 7⟩ (some 2)).currentAnimationTime =
      clampQ 2 0 (totalDuration [List.replicate 10 0] 1) := by
  obtain ⟨h1, h2, h3⟩ := C4_seek_stops_and_stores ⟨3, true, some 7⟩ 2 [List.replicate 10 0] 1
  exact ⟨h1, h2, h3 (by norm_num) (by norm_num [totalDuration])⟩

/-- C5 fails as stated: on a signal with a detected R-peak (index 1 of
`[0, 1, 0]`), the analysis records no companion Q-mark and no companion
S-mark at all — the Q and S lists stay empty. -/
theorem C5_counterexample :
    (runDetect initialPrqs [0, 1, 0] 1).R = [⟨1, 1, 1⟩] ∧
    (runDetect initialPrqs [0, 1, 0] 1).Q = [] ∧
    (runDetect initialPrqs [0, 1, 0] 1).S = [] := by
  refine ⟨?_, rfl, rfl⟩
  simp [runDetect, detect_single_peak]

/-- C5 amended: the analysis records only R-marks; the Q and S lists are not
touched by detection (and hence remain empty from the initial state) no
matter how many R-peaks are found. -/
theorem C5_no_QS_marks (pts : PrqsPoints) (sig : List ℚ) (R : ℕ) :
    (runDetect pts sig R).Q = pts.Q ∧
    (runDetect pts sig R).S = pts.S ∧
    (runDetect initialPrqs sig R).Q = [] ∧
    (runDetect initialPrqs sig R).S = [] :=
  ⟨rfl, rfl, rfl, rfl⟩

/-- C6 fails as stated: with a missing waveform the detection neither throws
nor reports `InvalidInput` — it silently returns; with an empty reference
lead it succeeds with zero marks. -/
theorem C6_counterexample :
    detectQRSOutcome none 360 = DetectOutcome.earlyReturn ∧
    detectQRSOutcome none 360 ≠ DetectOutcome.invalidInputError ∧
    detectQRSOutcome (some [[], []]) 360 = DetectOutcome.marks [] := by
  refine ⟨rfl, by simp [detectQRSOutcome], ?_⟩
  simp [detectQRSOutcome, referenceLead, detect_empty_lead]

/-- C6 amended: beat detection never produces an `InvalidInput` error: a
missing waveform or missing reference lead makes it return early without
touching the stored marks, and an empty reference lead makes it succeed
with an empty mark list. -/
theorem C6_detect_never_errors (e : Option (List (List ℚ))) (R : ℕ) :
    detectQRSOutcome e R ≠ DetectOutcome.invalidInputError ∧
    detectQRSOutcome none R = DetectOutcome.earlyReturn ∧
    (∀ leads, referenceLead leads = some [] →
      detectQRSOutcome (some leads) R = DetectOutcome.marks []) := by
  refine ⟨?_, rfl, ?_⟩
  · match e with
    | none => simp [detectQRSOutcome]
    | some leads =>
        cases hL : referenceLead leads <;> simp [detectQRSOutcome, hL]
  · intro leads hL
    simp [detectQRSOutcome, hL, detect_empty_lead]

/-- Witness for the amended C6 at a concrete waveform whose reference lead
is empty. -/
theorem C6_witness :
    detectQRSOutcome (some [[1, 2], []]) 360 = DetectOutcome.marks [] :=
  (C6_detect_never_errors (some [[1, 2], []]) 360).2.2 [[1, 2], []] rfl

/-- Function `sumQ` is list sum. -/
theorem sumQ_eq_sum (l : List ℚ) : sumQ l = l.sum := by
  rw [sumQ, List.sum_eq_foldl]

/-- Every element of the consecutive-pair fold satisfies any property that
holds of `f a b` for index-increasing consecutive pairs. -/
theorem zipWith_tail_forall (P : ℚ → Prop) (f : BeatMark → BeatMark → ℚ)
    (l : List BeatMark) (hl : l.Pairwise (fun a b => a.index < b.index))
    (hf : ∀ a b : BeatMark, a.index < b.index → P (f a b)) :
    ∀ q ∈ List.zipWith f l l.tail, P q := by
  induction l with
  | nil => simp
  | cons a t ih =>
      cases t with
      | nil => simp
      | cons b t2 =>
          intro q hq
          simp only [List.tail_cons, List.zipWith_cons_cons] at hq
          rcases List.mem_cons.mp hq with h | h
          · subst h
            exact hf a b ((List.pairwise_cons.mp hl).1 b (List.mem_cons_self b t2))
          · exact ih (List.pairwise_cons.mp hl).2 q h

/-- For strictly index-increasing marks and positive rate, every RR interval
of the consecutive-pair fold is positive. -/
theorem rr_intervals_pos (marks : List BeatMark) (R : ℕ) (hR : 0 < R)
    (hmono : marks.Pairwise (fun a b => a.index < b.index)) :
    ∀ q ∈ List.zipWith (fun a b => ((b.index : ℚ) - (a.index : ℚ)) / R) marks marks.tail,
      0 < q := by
  refine zipWith_tail_forall _ _ marks hmono ?_
  intro a b hab
  have hRq : (0 : ℚ) < R := by exact_mod_cast hR
  have hlt : (a.index : ℚ) < (b.index : ℚ) := by exact_mod_cast hab
  exact div_pos (sub_pos.mpr hlt) hRq

/-- C3: For every sequence of detected R-marks, the RR-interval sequence has
length equal to the R-mark count minus 1 (empty when the count is below 2),
each interval equals `(R[i].sampleIndex - R[i-1].sampleIndex) / samplingRate`
seconds, and the reported heart rate equals `round(60 / meanRR)` beats per
minute, with 0 reported when there are no intervals. -/
theorem C3_rr_intervals_and_heart_rate (marks : List BeatMark) (R : ℕ) (hR : 0 < R)
    (hmono : marks.Pairwise (fun a b => a.index < b.index)) :
    (calculateRRIntervals marks R).length = marks.length - 1 ∧
    (marks.length < 2 → calculateRRIntervals marks R = []) ∧
    (∀ j, j + 1 < marks.length →
      (calculateRRIntervals marks R).getD j 0 =
        (((marks.getD (j + 1) dMark).index : ℚ) - ((marks.getD j dMark).index : ℚ)) / R) ∧
    (calculateRRIntervals marks R = [] → updateStatsHeartRate marks R = 0) ∧
    (calculateRRIntervals marks R ≠ [] →
      0 < specMeanRR marks R ∧
      updateStatsHeartRate marks R = jsRound (60 / specMeanRR marks R)) := by
  refine ⟨?_, ?_, ?_, ?_, ?_⟩
  · by_cases h2 : marks.length < 2
    · rw [calculateRRIntervals, if_pos h2]
      simp only [List.length_nil]
      omega
    · rw [calculateRRIntervals, if_neg h2]
      simp only [List.length_zipWith, List.length_tail]
      omega
  · intro h2
    rw [calculateRRIntervals, if_pos h2]
  · intro j hj
    have h2 : ¬marks.length < 2 := by omega
    rw [calculateRRIntervals, if_neg h2]
    have hlen : j < (List.zipWith (fun a b => ((b.index : ℚ) - (a.index : ℚ)) / R)
        marks marks.tail).length := by
      simp only [List.length_zipWith, List.length_tail]
      omega
    rw [List.getD_eq_getElem _ _ hlen, List.getElem_zipWith,
      List.getElem_tail, List.getD_eq_getElem marks dMark (by omega),
      List.getD_eq_getElem marks dMark (by omega : j < marks.length)]
  · intro hnil
    rw [updateStatsHeartRate, hnil]
    norm_num
  · intro hnil
    have h2 : ¬marks.length < 2 := by
      intro h2
      exact hnil (by rw [calculateRRIntervals, if_pos h2])
    have hrr : calculateRRIntervals marks R =
        List.zipWith (fun a b => ((b.index : ℚ) - (a.index : ℚ)) / R) marks marks.tail := by
      rw [calculateRRIntervals, if_neg h2]
    have hlpos : 0 < (calculateRRIntervals marks R).length :=
      List.length_pos.mpr hnil
    have hsum : 0 < sumQ (calculateRRIntervals marks R) := by
      rw [sumQ_eq_sum]
      refine List.sum_pos _ ?_ hnil
      intro q hq
      rw [hrr] at hq
      exact rr_intervals_pos marks R hR hmono q hq
    have hmean : specMeanRR marks R =
        sumQ (calculateRRIntervals marks R) / (calculateRRIntervals marks R).length := by
      rw [specMeanRR, hrr]
    have hmeanpos : 0 < specMeanRR marks R := by
      rw [hmean]
      have : (0 : ℚ) < ((calculateRRIntervals marks R).length : ℚ) := by
        exact_mod_cast hlpos
      positivity
    refine ⟨hmeanpos, ?_⟩
    rw [updateStatsHeartRate]
    simp only [if_pos hlpos]
    rw [if_pos (hmean ▸ hmeanpos), hmean]

/-- Witness for C3 at two concrete marks 2 samples apart at rate 1. -/
theorem C3_witness : (0 : ℕ) < 1 ∧
    ([⟨0, 1, 0⟩, ⟨2, 1, 2⟩] : List BeatMark).Pairwise (fun a b => a.index < b.index) ∧
    updateStatsHeartRate [⟨0, 1, 0⟩, ⟨2, 1, 2⟩] 1 =
      jsRound (60 / specMeanRR [⟨0, 1, 0⟩, ⟨2, 1, 2⟩] 1) := by
  refine ⟨by norm_num, by decide, ?_⟩
  exact ((C3_rr_intervals_and_heart_rate [⟨0, 1, 0⟩, ⟨2, 1, 2⟩] 1 (by norm_num)
    (by decide)).2.2.2.2 (by decide)).2

/-- For at least two marks the global mean RR of the source computation is
the spec-side mean RR. -/
theorem specMeanRR_eq_calc (marks : List BeatMark) (R : ℕ) (h2 : 2 ≤ marks.length) :
    specMeanRR marks R =
      sumQ (calculateRRIntervals marks R) / (calculateRRIntervals marks R).length := by
  rw [specMeanRR, calculateRRIntervals, if_neg (by omega)]

/-- C9: For every playback window `[startSample, endSample)` and every set of
R-marks: the instantaneous heart rate equals `round(60 / mean RR)` over the
in-window marks when at least 2 fall inside; equals
`round(60 / global mean RR)` when exactly 1 falls inside and the global set
has more than one mark; and equals 0 otherwise; beats-in-window is the count
of R-marks whose sampleIndex lies in `[startSample, endSample)`. -/
theorem C9_windowed_stats (marksR : List BeatMark) (R : ℕ) (startIdx endIdx : ℕ) :
    updateStatsBeatsInWindow marksR startIdx endIdx = specBeatsInWindow marksR startIdx endIdx ∧
    updateStatsInstantHR marksR R startIdx endIdx = specInstantHR marksR R startIdx endIdx := by
  constructor
  · rw [updateStatsBeatsInWindow, windowBeats, specBeatsInWindow,
      List.countP_eq_length_filter]
  · rw [updateStatsInstantHR, specInstantHR]
    by_cases h2 : 2 ≤ (windowBeats marksR startIdx endIdx).length
    · simp only [if_pos h2, specMeanRR]
    · simp only [if_neg h2]
      by_cases h1 : (windowBeats marksR startIdx endIdx).length = 1 ∧ 1 < marksR.length
      · simp only [if_pos h1]
        have hg : calculateRRIntervals marksR R =
            List.zipWith (fun a b => ((b.index : ℚ) - (a.index : ℚ)) / R)
              marksR marksR.tail := by
          rw [calculateRRIntervals, if_neg (by omega)]
        have hlen : 0 < (calculateRRIntervals marksR R).length := by
          rw [hg]
          simp only [List.length_zipWith, List.length_tail]
          omega
        rw [if_pos hlen, specMeanRR_eq_calc marksR R (by omega)]
      · simp only [if_neg h1]

/-- The `forEach`-with-index-guard of the overlay branch keeps exactly a
prefix: filtering an enumeration from n by index < 10 takes 10 - n items. -/
theorem enumFrom_filterMap_take (t : List (List ℚ)) : ∀ n : ℕ,
    (List.enumFrom n t).filterMap (fun p => if p.1 < 10 then some p.2 else none) =
      t.take (10 - n) := by
  induction t with
  | nil => intro n; simp
  | cons a t2 ih =>
      intro n
      simp only [List.enumFrom_cons, List.filterMap_cons]
      by_cases hn : n < 10
      · rw [if_pos hn, ih (n + 1)]
        have h10 : 10 - n = (10 - (n + 1)) + 1 := by omega
        rw [h10, List.take_succ_cons]
      · rw [if_neg hn, ih (n + 1)]
        have h0 : 10 - n = 0 := by omega
        have h1 : 10 - (n + 1) = 0 := by omega
        rw [h0, h1, List.take_zero, List.take_zero]

/-- Every chunk produced by `generateXORChunks` has exactly `c` samples. -/
theorem generateXORChunks_chunk_length (s : List ℚ) (c : ℕ) (i : ℕ)
    (hi : i < s.length / c) : ((s.drop (i * c)).take c).length = c := by
  have h1 : (i + 1) * c ≤ (s.length / c) * c := Nat.mul_le_mul_right c hi
  have h2 : (s.length / c) * c ≤ s.length := Nat.div_mul_le_self s.length c
  simp only [List.length_take, List.length_drop]
  have : (i + 1) * c = i * c + c := by ring
  omega

/-- C7: For every lead of length len and chunk size c > 0, chunk generation
produces exactly `floor(len/c)` contiguous chunks of exactly c samples each
(trailing remainder discarded); overlay mode emits at most the first 10
chunks as traces; difference mode emits `abs(chunk[i][j] - chunk[0][j])`
traces for chunks i = 1 .. min(5, count-1), and emits an empty trace set
when fewer than 2 chunks exist. -/
theorem C7_chunk_traces (s : List ℚ) (c : ℕ) (hc : 0 < c) :
    (generateXORChunks s c).length = s.length / c ∧
    (∀ ch ∈ generateXORChunks s c, ch.length = c) ∧
    (∀ i j, i < s.length / c → j < c →
      ((generateXORChunks s c).getD i []).getD j 0 = s.getD (i * c + j) 0) ∧
    xorOverlayTraces (generateXORChunks s c) = (generateXORChunks s c).take 10 ∧
    ((generateXORChunks s c).length < 2 →
      xorDifferenceTraces (generateXORChunks s c) = []) ∧
    (2 ≤ (generateXORChunks s c).length →
      (xorDifferenceTraces (generateXORChunks s c)).length =
        min 5 ((generateXORChunks s c).length - 1) ∧
      (∀ j, j < (xorDifferenceTraces (generateXORChunks s c)).length →
        (xorDifferenceTraces (generateXORChunks s c)).getD j [] =
          List.zipWith (fun v b => |v - b|)
            ((generateXORChunks s c).getD (j + 1) [])
            ((generateXORChunks s c).getD 0 []) ∧
        ((xorDifferenceTraces (generateXORChunks s c)).getD j []).length = c)) := by
  have hlen : (generateXORChunks s c).length = s.length / c := by
    simp [generateXORChunks]
  have hchunk : ∀ i, i < s.length / c →
      (generateXORChunks s c).getD i [] = (s.drop (i * c)).take c := by
    intro i hi
    rw [List.getD_eq_getElem _ _ (by rw [hlen]; exact hi)]
    simp [generateXORChunks]
  have hchunklen : ∀ i, i < s.length / c →
      ((generateXORChunks s c).getD i []).length = c := by
    intro i hi
    rw [hchunk i hi]
    exact generateXORChunks_chunk_length s c i hi
  refine ⟨hlen, ?_, ?_, ?_, ?_, ?_⟩
  · intro ch hch
    rw [generateXORChunks] at hch
    obtain ⟨i, hi, rfl⟩ := List.mem_map.mp hch
    exact generateXORChunks_chunk_length s c i (List.mem_range.mp hi)
  · intro i j hi hj
    rw [hchunk i hi]
    have h1 : (i + 1) * c ≤ (s.length / c) * c := Nat.mul_le_mul_right c hi
    have h2 : (s.length / c) * c ≤ s.length := Nat.div_mul_le_self s.length c
    have h3 : (i + 1) * c = i * c + c := by ring
    have hijlen : i * c + j < s.length := by omega
    have hjl : j < ((s.drop (i * c)).take c).length := by
      rw [generateXORChunks_chunk_length s c i hi]
      exact hj
    rw [List.getD_eq_getElem _ _ hjl, List.getElem_take, List.getElem_drop,
      List.getD_eq_getElem _ _ hijlen]
  · rw [xorOverlayTraces,
      show (generateXORChunks s c).enum = List.enumFrom 0 (generateXORChunks s c) from rfl,
      enumFrom_filterMap_take (generateXORChunks s c) 0]
  · intro h2
    rw [xorDifferenceTraces, if_neg (by omega)]
  · intro h2
    have hdlen : (xorDifferenceTraces (generateXORChunks s c)).length =
        min 5 ((generateXORChunks s c).length - 1) := by
      rw [xorDifferenceTraces, if_pos h2]
      simp only [List.length_map, List.length_range']
      omega
    refine ⟨hdlen, ?_⟩
    intro j hj
    rw [hdlen] at hj
    have hj1 : j + 1 < s.length / c := by rw [← hlen]; omega
    have hj0 : 0 < s.length / c := by rw [← hlen]; omega
    have hmem : j < (List.range' 1 (min (generateXORChunks s c).length 6 - 1)).length := by
      simp only [List.length_range']
      omega
    have hval : (xorDifferenceTraces (generateXORChunks s c)).getD j [] =
        List.zipWith (fun v b => |v - b|)
          ((generateXORChunks s c).getD (j + 1) [])
          ((generateXORChunks s c).getD 0 []) := by
      rw [xorDifferenceTraces, if_pos h2,
        List.getD_eq_getElem _ _ (by simpa using hmem), List.getElem_map,
        List.getElem_range']
      have : 1 + 1 * j = j + 1 := by ring
      rw [this]
    refine ⟨hval, ?_⟩
    rw [hval]
    simp only [List.length_zipWith, hchunklen (j + 1) hj1, hchunklen 0 hj0, min_self]

/-- Witness for C7 on a 6-sample lead with chunk size 2. -/
theorem C7_witness : 0 < 2 ∧
    (generateXORChunks [0, 1, 2, 3, 4, 5] 2).length =
      ([0, 1, 2, 3, 4, 5] : List ℚ).length / 2 ∧
    xorOverlayTraces (generateXORChunks [0, 1, 2, 3, 4, 5] 2) =
      (generateXORChunks [0, 1, 2, 3, 4, 5] 2).take 10 := by
  have h := C7_chunk_traces [0, 1, 2, 3, 4, 5] 2 (by norm_num)
  exact ⟨by norm_num, h.1, h.2.2.2.1⟩

/-- Every index emitted by the stride loop is below the bound. -/
theorem strideLoop_mem_lt (n step : ℕ) (i : ℕ) : ∀ m ∈ strideLoop n step i, m < n := by
  rw [strideLoop.eq_def]
  by_cases h : i < n
  · rw [if_pos h]
    intro m hm
    rcases List.mem_cons.mp hm with h1 | h1
    · omega
    · exact strideLoop_mem_lt n step (i + max step 1) m h1
  · rw [if_neg h]
    intro m hm
    exact absurd hm (List.not_mem_nil m)
termination_by n - i

/-- The stride loop emits at most k indices once k strides cover the range. -/
theorem strideLoop_length_le (step : ℕ) : ∀ k i n, n ≤ i + k * max step 1 →
    (strideLoop n step i).length ≤ k := by
  intro k
  induction k with
  | zero =>
      intro i n h
      rw [strideLoop.eq_def, if_neg (by omega)]
      simp
  | succ k ih =>
      intro i n h
      rw [strideLoop.eq_def]
      by_cases hin : i < n
      · rw [if_pos hin]
        simp only [List.length_cons]
        have hsm : (k + 1) * max step 1 = k * max step 1 + max step 1 := by ring
        have := ih (i + max step 1) n (by omega)
        omega
      · rw [if_neg hin]
        simp

/-- With stride 1 the loop emits every index in `[i, n)`. -/
theorem strideLoop_one_length (n : ℕ) (i : ℕ) : (strideLoop n 1 i).length = n - i := by
  rw [strideLoop.eq_def]
  by_cases h : i < n
  · rw [if_pos h]
    simp only [List.length_cons, Nat.max_self]
    have := strideLoop_one_length n (i + 1)
    omega
  · rw [if_neg h]
    simp only [List.length_nil]
    omega
termination_by n - i

/-- C8 fails as stated: on two 1999-sample leads the stride is
`max(1, floor(1999/1000)) = 1`, so the decimated series keeps all 1999
points — more than 1000. -/
theorem C8_counterexample :
    1000 < (recurrenceXSeries (List.replicate 1999 (0 : ℚ))
      (List.replicate 1999 (0 : ℚ))).length := by
  rw [recurrenceXSeries, List.length_map, recurrenceIndices]
  have hlen : (List.replicate 1999 (0 : ℚ)).length = 1999 := List.length_replicate 1999 0
  rw [hlen]
  have hstride : recurrenceStride 1999 = 1 := by norm_num [recurrenceStride]
  rw [hstride]
  have := strideLoop_one_length (min 1999 1999) 0
  omega

/-- C8 amended: for every pair of non-empty leads, recurrence decimation with
stride `max(1, floor(length/1000))` produces an x series and a y series of
equal length whose entries are taken at identical indices of the two leads;
both series contain at most 1999 points (the stated 1000-point budget can be
exceeded, up to 1999 points). -/
theorem C8_recurrence_decimation (x y : List ℚ) (hx : x ≠ []) (hy : y ≠ []) :
    (recurrenceXSeries x y).length = (recurrenceYSeries x y).length ∧
    (∀ k, k < (recurrenceXSeries x y).length →
      ∃ i, i < min x.length y.length ∧
        (recurrenceXSeries x y).getD k 0 = x.getD i 0 ∧
        (recurrenceYSeries x y).getD k 0 = y.getD i 0) ∧
    (recurrenceXSeries x y).length ≤ 1999 ∧
    (recurrenceYSeries x y).length ≤ 1999 := by
  have hxy : (recurrenceXSeries x y).length = (recurrenceIndices x y).length :=
    List.length_map _ _
  have hyy : (recurrenceYSeries x y).length = (recurrenceIndices x y).length :=
    List.length_map _ _
  have hbound : (recurrenceIndices x y).length ≤ 1999 := by
    rw [recurrenceIndices]
    apply strideLoop_length_le
    have hd : x.length / 1000 = (x.length - x.length % 1000) / 1000 := by omega
    rcases Nat.eq_zero_or_pos (x.length / 1000) with h0 | h1
    · have : max 1 (x.length / 1000) = 1 := by omega
      rw [recurrenceStride, this]
      omega
    · have hmax : max 1 (x.length / 1000) = x.length / 1000 := by omega
      rw [recurrenceStride, hmax]
      have hmm : max (x.length / 1000) 1 = x.length / 1000 := by omega
      rw [hmm]
      omega
  refine ⟨by rw [hxy, hyy], ?_, by omega, by omega⟩
  intro k hk
  rw [hxy] at hk
  refine ⟨(recurrenceIndices x y).getD k 0, ?_, ?_, ?_⟩
  · have hmem : (recurrenceIndices x y).getD k 0 ∈ recurrenceIndices x y := by
      rw [List.getD_eq_getElem _ _ hk]
      exact List.getElem_mem hk
    exact strideLoop_mem_lt _ _ 0 _ hmem
  · rw [recurrenceXSeries, List.getD_eq_getElem _ _ (by rw [List.length_map]; exact hk),
      List.getElem_map, List.getD_eq_getElem _ _ hk]
  · rw [recurrenceYSeries, List.getD_eq_getElem _ _ (by rw [List.length_map]; exact hk),
      List.getElem_map, List.getD_eq_getElem _ _ hk]

/-- Witness for the amended C8 on two concrete one-sample leads. -/
theorem C8_witness :
    (recurrenceXSeries [5] [7]).length = (recurrenceYSeries [5] [7]).length ∧
    (recurrenceXSeries [5] [7]).length ≤ 1999 := by
  have h := C8_recurrence_decimation [5] [7] (by simp) (by simp)
  exact ⟨h.1, h.2.2.1⟩

end ECG
